import Mathlib

/-!
Shallow embedding of `src/callbacks.py` (training-loop callbacks:
`EarlyStopping` and `ModelCheckpoint`).

Modelling choices:
* Python floats carrying metric values are modelled as exact rationals;
  the float infinities produced by `float("inf")` / `float("-inf")` are the
  extra constructors of `EFloat`.  All comparisons in the source are order
  comparisons, and the only arithmetic (`best ± delta`) is extended by the
  IEEE rules `inf ± finite = inf`, `-inf ± finite = -inf`.
* The `logs` dict is an association list from metric names to rationals;
  `dict.get(k, default)` is `List.lookup` with an explicit default.
* `torch.save(model.state_dict(), path)` is recorded as the written `path`;
  the saved tensor data is opaque to this code.
* Raised exceptions (`IndexError` from indexing an empty list, `ValueError`)
  are the `Except.error` results of `ModelCheckpoint.on_epoch_end`.
-/

/-- Extended rational: model of a Python float metric value
(`fin q`, `float("inf")`, or `float("-inf")`; NaN never arises in the
modelled code paths). -/
inductive EFloat where
  | ninf : EFloat
  | fin : ℚ → EFloat
  | inf : EFloat
deriving DecidableEq

namespace EFloat

/-- Strict order on extended rationals, as Python float `<`. -/
def lt : EFloat → EFloat → Prop
  | ninf, ninf => False
  | ninf, _ => True
  | fin _, ninf => False
  | fin a, fin b => a < b
  | fin _, inf => True
  | inf, _ => False

instance : LT EFloat := ⟨lt⟩

instance decLt : ∀ a b : EFloat, Decidable (a < b)
  | ninf, ninf => isFalse (fun h => h)
  | ninf, fin _ => isTrue trivial
  | ninf, inf => isTrue trivial
  | fin _, ninf => isFalse (fun h => h)
  | fin a, fin b => inferInstanceAs (Decidable (a < b))
  | fin _, inf => isTrue trivial
  | inf, ninf => isFalse (fun h => h)
  | inf, fin _ => isFalse (fun h => h)
  | inf, inf => isFalse (fun h => h)

/-- Non-strict order. -/
def le (a b : EFloat) : Prop := a < b ∨ a = b

instance : LE EFloat := ⟨le⟩

instance decLe : ∀ a b : EFloat, Decidable (a ≤ b) := fun a b =>
  inferInstanceAs (Decidable (a < b ∨ a = b))

/-- `x - d` for a finite rational `d`, with `inf - d = inf`, `-inf - d = -inf`
(IEEE float behaviour of the source's `self.best_loss - self.delta`). -/
def subQ : EFloat → ℚ → EFloat
  | ninf, _ => ninf
  | fin a, d => fin (a - d)
  | inf, _ => inf

/-- `x + d` for a finite rational `d`, with `inf + d = inf`, `-inf + d = -inf`
(IEEE float behaviour of the source's `self.best_loss + self.delta`). -/
def addQ : EFloat → ℚ → EFloat
  | ninf, _ => ninf
  | fin a, d => fin (a + d)
  | inf, _ => inf

theorem lt_iff (a b : EFloat) : a < b ↔ lt a b := Iff.rfl

theorem le_iff (a b : EFloat) : a ≤ b ↔ (a < b ∨ a = b) := Iff.rfl

theorem lt_irrefl (a : EFloat) : ¬ a < a := by
  cases a <;> simp [lt_iff, lt]

theorem lt_asymm {a b : EFloat} (h : a < b) : ¬ b < a := by
  cases a <;> cases b <;> simp_all [lt_iff, lt] <;> linarith

theorem lt_trans {a b c : EFloat} (h1 : a < b) (h2 : b < c) : a < c := by
  cases a <;> cases b <;> cases c <;> simp_all [lt_iff, lt] <;> linarith

theorem lt_of_le_of_lt {a b c : EFloat} (h1 : a ≤ b) (h2 : b < c) : a < c := by
  rcases h1 with h1 | rfl
  · exact lt_trans h1 h2
  · exact h2

theorem not_lt_of_le {a b : EFloat} (h : a ≤ b) : ¬ b < a := by
  rcases h with h | rfl
  · exact lt_asymm h
  · exact lt_irrefl a

theorem le_refl (a : EFloat) : a ≤ a := Or.inr rfl

theorem le_of_lt {a b : EFloat} (h : a < b) : a ≤ b := Or.inl h

theorem le_trans {a b c : EFloat} (h1 : a ≤ b) (h2 : b ≤ c) : a ≤ c := by
  rcases h1 with h1 | rfl
  · rcases h2 with h2 | rfl
    · exact Or.inl (lt_trans h1 h2)
    · exact Or.inl h1
  · exact h2

theorem subQ_le_self {a : EFloat} {d : ℚ} (hd : 0 ≤ d) : a.subQ d ≤ a := by
  cases a with
  | ninf => exact le_refl _
  | inf => exact le_refl _
  | fin q =>
      rcases lt_or_eq_of_le hd with h | h
      · exact Or.inl (by simp [subQ, lt_iff, lt]; linarith)
      · exact Or.inr (by simp [subQ, ← h])

theorem le_addQ_self {a : EFloat} {d : ℚ} (hd : 0 ≤ d) : a ≤ a.addQ d := by
  cases a with
  | ninf => exact le_refl _
  | inf => exact le_refl _
  | fin q =>
      rcases lt_or_eq_of_le hd with h | h
      · exact Or.inl (by simp [addQ, lt_iff, lt]; linarith)
      · exact Or.inr (by simp [addQ, ← h])

end EFloat

/-- The `logs` dictionary handed to a callback: metric name to value. -/
abbrev Logs := List (String × ℚ)

/-- `logs.keys()`. -/
def Logs.keys (l : Logs) : List String := l.map Prod.fst

/-- `logs.get(k, default)` as an `EFloat`, with default `float("inf")`
— the lookup both callbacks perform on a monitored key. -/
def Logs.getD (l : Logs) (k : String) : EFloat :=
  match l.lookup k with
  | some v => .fin v
  | none => .inf

/-- State of an `EarlyStopping` instance (fields as in `__init__`). -/
structure EarlyStopping where
  patience : ℕ
  delta : ℚ
  counter : ℕ
  best_loss : EFloat
  best_epoch : ℕ
  metric_name : String
deriving DecidableEq

/-- `EarlyStopping.__init__` (Python defaults: `patience=10, delta=0`). -/
def EarlyStopping.init (patience : ℕ) (delta : ℚ) : EarlyStopping :=
  { patience := patience
    delta := delta
    counter := 0
    best_loss := .inf
    best_epoch := 0
    metric_name := "val_loss" }

/-- `EarlyStopping.on_epoch_begin`: returns `False`, touches nothing. -/
def EarlyStopping.on_epoch_begin (s : EarlyStopping) : EarlyStopping × Bool :=
  (s, false)

/-- `EarlyStopping.on_epoch_end(logs=...)`: returns the updated instance
and the boolean "stop" signal. -/
def EarlyStopping.on_epoch_end (s : EarlyStopping) (logs : Logs) :
    EarlyStopping × Bool :=
  let val_loss := Logs.getD logs s.metric_name
  if val_loss < s.best_loss.subQ s.delta then
    ({ s with best_loss := val_loss, counter := 0 }, false)
  else if s.best_loss.addQ s.delta < val_loss then
    let s' := { s with counter := s.counter + 1 }
    (s', decide (s.patience ≤ s'.counter))
  else
    (s, false)

/-- Fold a sequence of epoch-end calls over a list of `logs` dictionaries,
collecting the returned stop signals in order. -/
def runEarly (s : EarlyStopping) (ls : List Logs) : EarlyStopping × List Bool :=
  match ls with
  | [] => (s, [])
  | l :: rest =>
      let r := s.on_epoch_end l
      let t := runEarly r.1 rest
      (t.1, r.2 :: t.2)

/-- A one-entry logs dictionary carrying only `val_loss`. -/
def logsOf (v : ℚ) : Logs := [("val_loss", v)]

/-!
### Model of `difflib.get_close_matches` (Python stdlib)

`get_close_matches(word, possibilities, n, cutoff)` keeps the possibilities
whose `SequenceMatcher` similarity ratio with `word` is at least `cutoff`,
and returns the `n` best, ties broken by Python's tuple comparison on
`(ratio, possibility)` inside `heapq.nlargest`.  The ratio is
`2*M/T` where `M` is the total size of the matching blocks found by the
longest-matching-block recursion and `T` the total length (ratio `1` when
both strings are empty).  Junk heuristics never fire here: no junk predicate
is supplied and `autojunk` only applies to strings of length ≥ 200.
-/

/-- Length of the longest common prefix of two character lists. -/
def commonRunLen : List Char → List Char → ℕ
  | a :: as, b :: bs => if a = b then commonRunLen as bs + 1 else 0
  | _, _ => 0

/-- Length of the matching run of `a` and `b` starting at positions `i`, `j`. -/
def matchLenAt (a b : List Char) (i j : ℕ) : ℕ :=
  commonRunLen (a.drop i) (b.drop j)

/-- `SequenceMatcher.find_longest_match` on whole sequences: the triple
`(i, j, k)` with `a[i:i+k] = b[j:j+k]`, `k` maximal, then `i` minimal,
then `j` minimal; `(0, 0, 0)` when there is no non-empty common run. -/
def bestMatch (a b : List Char) : ℕ × ℕ × ℕ :=
  ((List.range a.length).flatMap fun i =>
      (List.range b.length).map fun j => (i, j, matchLenAt a b i j)).foldl
    (fun best c => if best.2.2 < c.2.2 then c else best) (0, 0, 0)

/-- Total size of all matching blocks (`SequenceMatcher.get_matching_blocks`
recursion).  The fuel argument bounds the recursion depth; every recursive
call strictly shrinks the combined length, so `a.length + b.length` fuel is
always enough. -/
def totalMatchAux : ℕ → List Char → List Char → ℕ
  | 0, _, _ => 0
  | fuel + 1, a, b =>
      let m := bestMatch a b
      if m.2.2 = 0 then 0
      else
        totalMatchAux fuel (a.take m.1) (b.take m.2.1) + m.2.2 +
          totalMatchAux fuel (a.drop (m.1 + m.2.2)) (b.drop (m.2.1 + m.2.2))

/-- `SequenceMatcher(None, a, b).ratio()`: `2*M/T`, or `1.0` when both
sequences are empty. -/
def similarity (a b : List Char) : ℚ :=
  if a.length + b.length = 0 then 1
  else (2 * totalMatchAux (a.length + b.length) a b : ℚ) / (a.length + b.length)

/-- Python tuple comparison `(r1, x1) < (r2, x2)` on (float, str) pairs,
the order `heapq.nlargest` uses on `(ratio, possibility)`. -/
def scoredLt (p q : ℚ × String) : Bool :=
  decide (p.1 < q.1) || (decide (p.1 = q.1) && decide (p.2 < q.2))

/-- Insert into a descending list, after any entry it does not strictly
exceed (the stable placement `sorted(..., reverse=True)` produces). -/
def insertTop (p : ℚ × String) : List (ℚ × String) → List (ℚ × String)
  | [] => [p]
  | q :: rest => if scoredLt q p then p :: q :: rest else q :: insertTop p rest

/-- Stable descending sort by `(ratio, possibility)`;
`heapq.nlargest n xs` is `(sortTop xs).take n`. -/
def sortTop : List (ℚ × String) → List (ℚ × String)
  | [] => []
  | p :: rest => insertTop p (sortTop rest)

/-- `difflib.get_close_matches(word, possibilities, n, cutoff)`. -/
def get_close_matches (word : String) (possibilities : List String)
    (n : ℕ) (cutoff : ℚ) : List String :=
  let scored := possibilities.filterMap fun x =>
    let r := similarity x.toList word.toList
    if cutoff ≤ r then some (r, x) else none
  ((sortTop scored).take n).map Prod.snd

/-- `os.path.join(a, b)` (POSIX): `b` if it is absolute (starts with the
separator), otherwise `a` and `b` glued with exactly one separator. -/
def ospathJoin (a b : String) : String :=
  if b.data.head? = some '/' then b
  else if a = "" ∨ a.data.getLast? = some '/' then a ++ b
  else a ++ "/" ++ b

/-!
### Model of Python `str(n)` for a non-negative integer

`f"..._epoch_{epoch}..."` renders `epoch` in decimal.  `natDecimal` produces
the most-significant-first decimal digit list and `natStr` the string.
-/

/-- Decimal digits, most significant first, with a fuel bound on the digit
count; `fuel = n + 1` always suffices since `n / 10 < n` for `n ≥ 10`. -/
def natDecimalAux : ℕ → ℕ → List ℕ
  | 0, _ => []
  | fuel + 1, n => if n < 10 then [n] else natDecimalAux fuel (n / 10) ++ [n % 10]

/-- Decimal digits of `n`, most significant first (`0` renders as `[0]`). -/
def natDecimal (n : ℕ) : List ℕ := natDecimalAux (n + 1) n

/-- Decimal rendering of a natural number, as Python `str`. -/
def natStr (n : ℕ) : String :=
  String.mk ((natDecimal n).map fun d => Char.ofNat (48 + d))

/-- Python exceptions that `ModelCheckpoint.on_epoch_end` can raise. -/
inductive PyErr where
  | indexError : PyErr
  | valueError : String → PyErr
deriving DecidableEq

/-- State of a `ModelCheckpoint` instance (fields as in `__init__`). -/
structure ModelCheckpoint where
  slurm_job_id : String
  save_path : String
  monitor : String
  mode : String
  save_best_only : Bool
  best_metric : EFloat
  best_epoch : ℕ
deriving DecidableEq

/-- `ModelCheckpoint.__init__` (Python defaults: `monitor="val_loss"`,
`mode="min"`, `save_best_only=True`). -/
def ModelCheckpoint.init (slurm_job_id save_path monitor mode : String)
    (save_best_only : Bool) : ModelCheckpoint :=
  { slurm_job_id := slurm_job_id
    save_path := save_path
    monitor := monitor
    mode := mode
    save_best_only := save_best_only
    best_metric := if mode = "min" then .inf else .ninf
    best_epoch := 0 }

/-- `ModelCheckpoint.on_epoch_begin`: returns `False`, touches nothing. -/
def ModelCheckpoint.on_epoch_begin (s : ModelCheckpoint) :
    ModelCheckpoint × Bool :=
  (s, false)

/-- The message of the `ValueError` raised when the fallback match is falsy
(the Python f-string quotes the monitor name and shows `list(logs.keys())`). -/
def monitorErrMsg (monitor : String) (keys : List String) : String :=
  "Monitor metric " ++ monitor ++ " not found in logs. Available metrics: " ++
    String.intercalate (", ") keys

/-- Lines 119–130 of the source: at `epoch == 1` with the monitored key
absent, index the `get_close_matches(..., n=1, cutoff=0)` result (an
`IndexError` when it is empty), adopt a truthy match as the new monitor,
and raise `ValueError` on a falsy (empty-string) match. -/
def ModelCheckpoint.resolveMonitor (s : ModelCheckpoint) (epoch : ℕ)
    (logs : Logs) : Except PyErr ModelCheckpoint :=
  if epoch = 1 ∧ (logs.lookup s.monitor).isNone then
    match (get_close_matches s.monitor (Logs.keys logs) 1 0).head? with
    | none => .error .indexError
    | some close_matches =>
        if close_matches ≠ "" then
          .ok { s with monitor := close_matches }
        else
          .error (.valueError (monitorErrMsg s.monitor (Logs.keys logs)))
  else
    .ok s

/-- The single path used by best-only saves: `<save_path>/<job_id>.pth`. -/
def bestOnlyPath (s : ModelCheckpoint) : String :=
  ospathJoin s.save_path (s.slurm_job_id ++ ".pth")

/-- The per-epoch path used when `save_best_only` is off:
`<save_path>/<job_id>_epoch_<N>.pth`. -/
def epochPath (s : ModelCheckpoint) (epoch : ℕ) : String :=
  ospathJoin s.save_path (s.slurm_job_id ++ "_epoch_" ++ natStr epoch ++ ".pth")

/-- Lines 132–153 of the source: read the monitored metric (missing key
defaults to `float("inf")`) and save the model best-only or every epoch. -/
def ModelCheckpoint.saveStep (s : ModelCheckpoint) (epoch : ℕ) (logs : Logs) :
    ModelCheckpoint × List String × Bool :=
  let current_metric := Logs.getD logs s.monitor
  if s.save_best_only then
    if (s.mode = "min" ∧ current_metric < s.best_metric) ∨
        (s.mode = "max" ∧ s.best_metric < current_metric) then
      ({ s with best_metric := current_metric, best_epoch := epoch },
        [bestOnlyPath s], false)
    else
      (s, [], false)
  else
    (s, [epochPath s epoch], false)

/-- `ModelCheckpoint.on_epoch_end(epoch=..., logs=..., model=...)`:
returns the updated instance, the list of file paths written by
`torch.save` during the call, and the boolean "stop" signal; exceptions
surface as `Except.error`. -/
def ModelCheckpoint.on_epoch_end (s : ModelCheckpoint) (epoch : ℕ)
    (logs : Logs) : Except PyErr (ModelCheckpoint × List String × Bool) :=
  match s.resolveMonitor epoch logs with
  | .error e => .error e
  | .ok s => .ok (s.saveStep epoch logs)

/-!
### Branch characterisations of `EarlyStopping.on_epoch_end`
-/

theorem Logs.getD_of_lookup {l : Logs} {k : String} {v : ℚ}
    (h : l.lookup k = some v) : Logs.getD l k = .fin v := by
  simp [Logs.getD, h]

theorem Logs.getD_of_missing {l : Logs} {k : String}
    (h : (l.lookup k).isNone) : Logs.getD l k = .inf := by
  rw [Option.isNone_iff_eq_none] at h
  simp [Logs.getD, h]

theorem EarlyStopping.on_epoch_end_improve {s : EarlyStopping} {logs : Logs}
    (h : Logs.getD logs s.metric_name < s.best_loss.subQ s.delta) :
    s.on_epoch_end logs =
      ({ s with best_loss := Logs.getD logs s.metric_name, counter := 0 }, false) := by
  rw [on_epoch_end]
  simp only [if_pos h]

theorem EarlyStopping.on_epoch_end_worse {s : EarlyStopping} {logs : Logs}
    (h1 : ¬ Logs.getD logs s.metric_name < s.best_loss.subQ s.delta)
    (h2 : s.best_loss.addQ s.delta < Logs.getD logs s.metric_name) :
    s.on_epoch_end logs =
      ({ s with counter := s.counter + 1 }, decide (s.patience ≤ s.counter + 1)) := by
  rw [on_epoch_end]
  simp only [if_neg h1, if_pos h2]

theorem EarlyStopping.on_epoch_end_band {s : EarlyStopping} {logs : Logs}
    (h1 : ¬ Logs.getD logs s.metric_name < s.best_loss.subQ s.delta)
    (h2 : ¬ s.best_loss.addQ s.delta < Logs.getD logs s.metric_name) :
    s.on_epoch_end logs = (s, false) := by
  rw [on_epoch_end]
  simp only [if_neg h1, if_neg h2]

theorem EarlyStopping.subQ_le_addQ {a : EFloat} {d : ℚ} (hd : 0 ≤ d) :
    a.subQ d ≤ a.addQ d :=
  EFloat.le_trans (EFloat.subQ_le_self hd) (EFloat.le_addQ_self hd)

/-!
### Claims C1 and C2
-/

/-- C1: with delta ≥ 0 (delta is a magnitude), an `on_epoch_end` call whose
logged `val_loss` is strictly greater than `best_loss + delta` increments the
non-improvement counter, and the call returns `True` exactly when the counter
reaches `patience`; in particular for `patience=2`, `delta=0` and losses
`[1.0, 1.1, 1.2]` the three calls return `False, False, True`. -/
theorem c1_nonimprovement_counts_toward_stop (s : EarlyStopping) (logs : Logs)
    (v : ℚ) (hd : 0 ≤ s.delta) (hm : logs.lookup s.metric_name = some v)
    (hgt : s.best_loss.addQ s.delta < EFloat.fin v) :
    (s.on_epoch_end logs).1.counter = s.counter + 1 ∧
    ((s.on_epoch_end logs).2 = true ↔ s.patience ≤ s.counter + 1) ∧
    (runEarly (EarlyStopping.init 2 0)
      [logsOf 1, logsOf (11/10), logsOf (6/5)]).2 = [false, false, true] := by
  have hv : Logs.getD logs s.metric_name = .fin v := Logs.getD_of_lookup hm
  have hnlt : ¬ Logs.getD logs s.metric_name < s.best_loss.subQ s.delta := by
    rw [hv]
    exact EFloat.lt_asymm
      (EFloat.lt_of_le_of_lt (EarlyStopping.subQ_le_addQ hd) hgt)
  have hgt' : s.best_loss.addQ s.delta < Logs.getD logs s.metric_name := by
    rw [hv]; exact hgt
  rw [EarlyStopping.on_epoch_end_worse hnlt hgt']
  refine ⟨rfl, by simp, ?_⟩
  norm_num [runEarly, EarlyStopping.on_epoch_end, EarlyStopping.init, logsOf,
    Logs.getD, List.lookup, EFloat.subQ, EFloat.addQ, EFloat.lt_iff, EFloat.lt]

/-- C2: a logged `val_loss` inside the closed band
`[best_loss - delta, best_loss + delta]` leaves the instance unchanged
(counter and `best_loss` untouched) and the call returns `False`. -/
theorem c2_delta_band_is_noop (s : EarlyStopping) (logs : Logs) (v : ℚ)
    (hm : logs.lookup s.metric_name = some v)
    (hlo : s.best_loss.subQ s.delta ≤ EFloat.fin v)
    (hhi : EFloat.fin v ≤ s.best_loss.addQ s.delta) :
    s.on_epoch_end logs = (s, false) := by
  have hv : Logs.getD logs s.metric_name = .fin v := Logs.getD_of_lookup hm
  exact EarlyStopping.on_epoch_end_band
    (by rw [hv]; exact EFloat.not_lt_of_le hlo)
    (by rw [hv]; exact EFloat.not_lt_of_le hhi)

/-- Witness for C1: a concrete non-improving call (best 1, value 2,
patience 2, counter 0) increments the counter to 1. -/
theorem c1_witness :
    (0:ℚ) ≤ 0 ∧
    ([("val_loss", (2:ℚ))] : Logs).lookup ("val_loss") = some 2 ∧
    (EFloat.fin 1).addQ 0 < EFloat.fin 2 ∧
    (({ patience := 2, delta := 0, counter := 0, best_loss := .fin 1,
        best_epoch := 0, metric_name := "val_loss" } : EarlyStopping).on_epoch_end
      [("val_loss", 2)]).1.counter = 0 + 1 :=
  ⟨le_refl 0, by decide,
    by norm_num [EFloat.addQ, EFloat.lt_iff, EFloat.lt],
    (c1_nonimprovement_counts_toward_stop
      { patience := 2, delta := 0, counter := 0, best_loss := .fin 1,
        best_epoch := 0, metric_name := "val_loss" }
      [("val_loss", 2)] 2 (le_refl 0) (by decide)
      (by norm_num [EFloat.addQ, EFloat.lt_iff, EFloat.lt])).1⟩

/-- Witness for C2: with best 5 and delta 1, the in-band value 5 leaves the
instance unchanged and returns `False`. -/
theorem c2_witness :
    ([("val_loss", (5:ℚ))] : Logs).lookup ("val_loss") = some 5 ∧
    (EFloat.fin 5).subQ 1 ≤ EFloat.fin 5 ∧
    EFloat.fin 5 ≤ (EFloat.fin 5).addQ 1 ∧
    ({ patience := 10, delta := 1, counter := 3, best_loss := .fin 5,
       best_epoch := 0, metric_name := "val_loss" } : EarlyStopping).on_epoch_end
      [("val_loss", 5)] =
      ({ patience := 10, delta := 1, counter := 3, best_loss := .fin 5,
         best_epoch := 0, metric_name := "val_loss" }, false) :=
  ⟨by decide,
    by norm_num [EFloat.subQ, EFloat.le_iff, EFloat.lt_iff, EFloat.lt],
    by norm_num [EFloat.addQ, EFloat.le_iff, EFloat.lt_iff, EFloat.lt],
    c2_delta_band_is_noop
      { patience := 10, delta := 1, counter := 3, best_loss := .fin 5,
        best_epoch := 0, metric_name := "val_loss" }
      [("val_loss", 5)] 5 (by decide)
      (by norm_num [EFloat.subQ, EFloat.le_iff, EFloat.lt_iff, EFloat.lt])
      (by norm_num [EFloat.addQ, EFloat.le_iff, EFloat.lt_iff, EFloat.lt])⟩

/-!
### Claim C7 and the best-loss invariant (C9)
-/

/-- C7: over any sequence of logged `val_loss` values in which each value is
strictly below the previous best minus delta, every call returns `False`
(stop is never signalled) and the counter ends at zero. -/
theorem c7_strictly_improving_never_stops (s : EarlyStopping) (losses : List ℚ)
    (hname : s.metric_name = "val_loss")
    (hhead : ∀ v ∈ losses.head?, EFloat.fin v < s.best_loss.subQ s.delta)
    (hchain : losses.Chain' fun a b => b < a - s.delta) :
    (runEarly s (losses.map logsOf)).2 = losses.map (fun _ => false) ∧
    (losses ≠ [] → (runEarly s (losses.map logsOf)).1.counter = 0) := by
  induction losses generalizing s with
  | nil => exact ⟨rfl, fun h => absurd rfl h⟩
  | cons v rest ih =>
      have hv : Logs.getD (logsOf v) s.metric_name = .fin v := by
        rw [hname]; rfl
      have himp : Logs.getD (logsOf v) s.metric_name < s.best_loss.subQ s.delta := by
        rw [hv]; exact hhead v rfl
      have hstep := EarlyStopping.on_epoch_end_improve himp
      rw [List.chain'_cons'] at hchain
      have hrest := ih { s with best_loss := Logs.getD (logsOf v) s.metric_name,
                                counter := 0 }
        hname
        (by
          intro w hw
          have := hchain.1 w hw
          rw [hv]
          simpa [EFloat.subQ, EFloat.lt_iff, EFloat.lt] using this)
        hchain.2
      constructor
      · simp only [List.map_cons, runEarly, hstep]
        exact congrArg (List.cons false) hrest.1
      · intro _
        simp only [List.map_cons, runEarly, hstep]
        rcases Decidable.em (rest = []) with hr | hr
        · subst hr; rfl
        · exact hrest.2 hr

/-- Witness for C7: patience 2, delta 1/2, losses `[3, 2, 1]` — three calls,
three `False`s, counter zero. -/
theorem c7_witness :
    (EarlyStopping.init 2 (1/2)).metric_name = "val_loss" ∧
    (∀ v ∈ ([3, 2, 1] : List ℚ).head?,
      EFloat.fin v < (EarlyStopping.init 2 (1/2)).best_loss.subQ
        (EarlyStopping.init 2 (1/2)).delta) ∧
    ([3, 2, 1] : List ℚ).Chain' (fun a b => b < a - (EarlyStopping.init 2 (1/2)).delta) ∧
    (runEarly (EarlyStopping.init 2 (1/2))
      (([3, 2, 1] : List ℚ).map logsOf)).2 = ([3, 2, 1] : List ℚ).map (fun _ => false) := by
  have hhead : ∀ v ∈ ([3, 2, 1] : List ℚ).head?,
      EFloat.fin v < (EarlyStopping.init 2 (1/2)).best_loss.subQ
        (EarlyStopping.init 2 (1/2)).delta := by
    intro v hw
    simp only [List.head?, Option.mem_def, Option.some.injEq] at hw
    subst hw
    decide
  have hchain : ([3, 2, 1] : List ℚ).Chain'
      (fun a b => b < a - (EarlyStopping.init 2 (1/2)).delta) := by
    norm_num [List.chain'_cons, EarlyStopping.init]
  exact ⟨rfl, hhead, hchain,
    (c7_strictly_improving_never_stops (EarlyStopping.init 2 (1/2)) [3, 2, 1]
      rfl hhead hchain).1⟩

theorem EarlyStopping.on_epoch_end_delta (s : EarlyStopping) (logs : Logs) :
    (s.on_epoch_end logs).1.delta = s.delta := by
  simp only [on_epoch_end]
  split
  · rfl
  · split <;> rfl

theorem EFloat.lt_of_lt_of_le {a b c : EFloat} (h1 : a < b) (h2 : b ≤ c) :
    a < c := by
  rcases h2 with h2 | rfl
  · exact EFloat.lt_trans h1 h2
  · exact h1

theorem EarlyStopping.on_epoch_end_best_le {s : EarlyStopping} (logs : Logs)
    (hd : 0 ≤ s.delta) : (s.on_epoch_end logs).1.best_loss ≤ s.best_loss := by
  by_cases h1 : Logs.getD logs s.metric_name < s.best_loss.subQ s.delta
  · rw [on_epoch_end_improve h1]
    exact EFloat.le_of_lt (EFloat.lt_of_lt_of_le h1 (EFloat.subQ_le_self hd))
  · by_cases h2 : s.best_loss.addQ s.delta < Logs.getD logs s.metric_name
    · rw [on_epoch_end_worse h1 h2]
      exact EFloat.le_refl _
    · rw [on_epoch_end_band h1 h2]
      exact EFloat.le_refl _

theorem runEarly_best_mono (ls : List Logs) (s : EarlyStopping)
    (hd : 0 ≤ s.delta) : (runEarly s ls).1.best_loss ≤ s.best_loss := by
  induction ls generalizing s with
  | nil => exact EFloat.le_refl _
  | cons l rest ih =>
      have hd' : 0 ≤ (s.on_epoch_end l).1.delta := by
        rw [EarlyStopping.on_epoch_end_delta]; exact hd
      have hstep : (runEarly s (l :: rest)).1.best_loss
          = (runEarly (s.on_epoch_end l).1 rest).1.best_loss := by
        simp only [runEarly]
      rw [hstep]
      exact EFloat.le_trans (ih _ hd') (EarlyStopping.on_epoch_end_best_le l hd)

/-- C9: with delta ≥ 0, `best_loss` starts at `+inf`, never increases across
any sequence of calls, changes only to a value strictly below
`best_loss - delta` (with the counter reset to zero there), and is otherwise
left in place with the counter merely kept or incremented. -/
theorem c9_best_loss_invariant (s : EarlyStopping) (logs : Logs)
    (ls : List Logs) (p : ℕ) (d : ℚ) (hd : 0 ≤ s.delta) :
    (EarlyStopping.init p d).best_loss = EFloat.inf ∧
    (s.on_epoch_end logs).1.best_loss ≤ s.best_loss ∧
    ((s.on_epoch_end logs).1.best_loss ≠ s.best_loss →
      (s.on_epoch_end logs).1.best_loss < s.best_loss.subQ s.delta ∧
      (s.on_epoch_end logs).1.counter = 0) ∧
    ((s.on_epoch_end logs).1.best_loss = s.best_loss →
      (s.on_epoch_end logs).1.counter = s.counter ∨
      (s.on_epoch_end logs).1.counter = s.counter + 1) ∧
    (runEarly s ls).1.best_loss ≤ s.best_loss := by
  refine ⟨rfl, EarlyStopping.on_epoch_end_best_le logs hd, ?_, ?_,
    runEarly_best_mono ls s hd⟩
  · intro hne
    by_cases h1 : Logs.getD logs s.metric_name < s.best_loss.subQ s.delta
    · rw [EarlyStopping.on_epoch_end_improve h1]
      exact ⟨h1, rfl⟩
    · by_cases h2 : s.best_loss.addQ s.delta < Logs.getD logs s.metric_name
      · rw [EarlyStopping.on_epoch_end_worse h1 h2] at hne
        exact absurd rfl hne
      · rw [EarlyStopping.on_epoch_end_band h1 h2] at hne
        exact absurd rfl hne
  · intro heq
    by_cases h1 : Logs.getD logs s.metric_name < s.best_loss.subQ s.delta
    · rw [EarlyStopping.on_epoch_end_improve h1] at heq
      have heq' : Logs.getD logs s.metric_name = s.best_loss := heq
      rw [heq'] at h1
      exact absurd (EFloat.lt_of_lt_of_le h1 (EFloat.subQ_le_self hd))
        (EFloat.lt_irrefl _)
    · by_cases h2 : s.best_loss.addQ s.delta < Logs.getD logs s.metric_name
      · rw [EarlyStopping.on_epoch_end_worse h1 h2]
        exact Or.inr rfl
      · rw [EarlyStopping.on_epoch_end_band h1 h2]
        exact Or.inl rfl

/-- Witness for C9: a fresh instance with delta 0 (and one logged loss). -/
theorem c9_witness :
    (0:ℚ) ≤ (EarlyStopping.init 3 0).delta ∧
    ((EarlyStopping.init 3 0).on_epoch_end (logsOf 1)).1.best_loss ≤
      (EarlyStopping.init 3 0).best_loss :=
  ⟨le_refl 0,
    (c9_best_loss_invariant (EarlyStopping.init 3 0) (logsOf 1) [] 3 0
      (le_refl 0)).2.1⟩

/-!
### Claims C8 and C3
-/

theorem ModelCheckpoint.saveStep_noStop (s : ModelCheckpoint) (epoch : ℕ)
    (logs : Logs) : (s.saveStep epoch logs).2.2 = false := by
  simp only [saveStep]
  split
  · split <;> rfl
  · rfl

/-- C8: `on_epoch_begin` of both callbacks returns `False` and leaves the
instance untouched, and every normally-returning `ModelCheckpoint.on_epoch_end`
call returns `False` — `ModelCheckpoint` never signals stop. -/
theorem c8_begin_noop_and_checkpoint_never_stops (e : EarlyStopping)
    (m : ModelCheckpoint) (epoch : ℕ) (logs : Logs)
    (r : ModelCheckpoint × List String × Bool)
    (h : m.on_epoch_end epoch logs = .ok r) :
    e.on_epoch_begin = (e, false) ∧ m.on_epoch_begin = (m, false) ∧
    r.2.2 = false := by
  refine ⟨rfl, rfl, ?_⟩
  rw [ModelCheckpoint.on_epoch_end] at h
  cases hres : m.resolveMonitor epoch logs with
  | error err => rw [hres] at h; cases h
  | ok s1 =>
      rw [hres] at h
      injection h with h
      rw [← h]
      exact ModelCheckpoint.saveStep_noStop s1 epoch logs

/-- Witness for C8: a concrete non-improving epoch-2 call returns `False`. -/
theorem c8_witness :
    (ModelCheckpoint.init ("j") ("p") ("val_loss") ("min") true).on_epoch_end 2 [] =
      .ok (ModelCheckpoint.init ("j") ("p") ("val_loss") ("min") true, [], false) ∧
    ((ModelCheckpoint.init ("j") ("p") ("val_loss") ("min") true,
      ([] : List String), false)).2.2 = false :=
  ⟨by rfl,
    (c8_begin_noop_and_checkpoint_never_stops (EarlyStopping.init 1 0)
      (ModelCheckpoint.init ("j") ("p") ("val_loss") ("min") true) 2 []
      (ModelCheckpoint.init ("j") ("p") ("val_loss") ("min") true, [], false)
      (by rfl)).2.2⟩

/-- C3 (code bug): at epoch 1 with `logs` containing no keys at all,
`get_close_matches(..., n=1, cutoff=0)` returns the empty list, so the `[0]`
subscript on line 124 of the source raises `IndexError` before the intended
`ValueError` branch can run.  The claim (and the source's own ValueError
message) expect a configuration error listing the monitor and the available
keys. -/
theorem c3_epoch1_no_keys_raises_index_error :
    (ModelCheckpoint.init ("job") ("save") ("val_loss") ("min") true).on_epoch_end 1 []
      = .error .indexError := by rfl

/-!
### Injectivity of the decimal rendering (distinct epochs, distinct paths)
-/

/-- Value of a most-significant-first digit list. -/
def decValue (ds : List ℕ) : ℕ := ds.foldl (fun a d => 10 * a + d) 0

theorem decValue_natDecimalAux :
    ∀ fuel n : ℕ, n < fuel → decValue (natDecimalAux fuel n) = n := by
  intro fuel
  induction fuel with
  | zero => intro n h; omega
  | succ fuel ih =>
      intro n h
      rw [natDecimalAux]
      by_cases h10 : n < 10
      · rw [if_pos h10]
        simp [decValue]
      · rw [if_neg h10]
        have h1 : n / 10 < fuel := by
          have := Nat.div_lt_self (by omega : 0 < n) (by omega : 1 < 10)
          omega
        have h2 := ih (n / 10) h1
        simp only [decValue, List.foldl_append, List.foldl_cons,
          List.foldl_nil] at h2 ⊢
        rw [h2]
        omega

theorem natDecimal_inj {n m : ℕ} (h : natDecimal n = natDecimal m) : n = m := by
  have hn := decValue_natDecimalAux (n + 1) n (by omega)
  have hm := decValue_natDecimalAux (m + 1) m (by omega)
  rw [natDecimal] at h
  rw [natDecimal] at h
  rw [← hn, ← hm, h]

theorem natDecimalAux_digits_lt :
    ∀ fuel n : ℕ, ∀ d ∈ natDecimalAux fuel n, d < 10 := by
  intro fuel
  induction fuel with
  | zero => intro n d hd; cases hd
  | succ fuel ih =>
      intro n d hd
      rw [natDecimalAux] at hd
      by_cases h10 : n < 10
      · rw [if_pos h10] at hd
        simp at hd
        omega
      · rw [if_neg h10] at hd
        rw [List.mem_append] at hd
        rcases hd with hd | hd
        · exact ih (n / 10) d hd
        · simp at hd
          omega

theorem digitChar_inj {d1 d2 : ℕ} (h1 : d1 < 10) (h2 : d2 < 10)
    (h : Char.ofNat (48 + d1) = Char.ofNat (48 + d2)) : d1 = d2 := by
  interval_cases d1 <;> interval_cases d2 <;> simp_all <;> cases h

theorem digitMap_inj :
    ∀ l1 l2 : List ℕ, (∀ d ∈ l1, d < 10) → (∀ d ∈ l2, d < 10) →
      l1.map (fun d => Char.ofNat (48 + d)) = l2.map (fun d => Char.ofNat (48 + d)) →
      l1 = l2 := by
  intro l1
  induction l1 with
  | nil => intro l2 _ _ h; cases l2 with
      | nil => rfl
      | cons b bs => cases h
  | cons a as ih =>
      intro l2 hb1 hb2 h
      cases l2 with
      | nil => cases h
      | cons b bs =>
          simp only [List.map_cons, List.cons.injEq] at h
          have hab : a = b :=
            digitChar_inj (hb1 a (by simp)) (hb2 b (by simp)) h.1
          rw [hab, ih bs (fun d hd => hb1 d (by simp [hd]))
            (fun d hd => hb2 d (by simp [hd])) h.2]

theorem natStr_inj {n m : ℕ} (h : natStr n = natStr m) : n = m := by
  rw [natStr, natStr] at h
  have hdata : (natDecimal n).map (fun d => Char.ofNat (48 + d)) =
      (natDecimal m).map (fun d => Char.ofNat (48 + d)) := by
    have := congrArg String.data h
    simpa using this
  exact natDecimal_inj (digitMap_inj _ _
    (natDecimalAux_digits_lt _ _) (natDecimalAux_digits_lt _ _) hdata)

theorem epochName_inj (job : String) {n m : ℕ}
    (h : job ++ "_epoch_" ++ natStr n ++ ".pth" =
         job ++ "_epoch_" ++ natStr m ++ ".pth") : n = m := by
  have hd := congrArg String.data h
  simp only [String.data_append, List.append_assoc] at hd
  have h1 := List.append_cancel_left hd
  have h2 := List.append_cancel_left h1
  have h3 := List.append_cancel_right h2
  exact natStr_inj (String.ext h3)

theorem epochName_head_eq (job : String) (n m : ℕ) :
    (job ++ "_epoch_" ++ natStr n ++ ".pth").data.head? =
    (job ++ "_epoch_" ++ natStr m ++ ".pth").data.head? := by
  simp [String.data_append, List.append_assoc, List.head?_append]

theorem ospathJoin_right_inj (a : String) {b c : String}
    (hhead : b.data.head? = c.data.head?) (h : ospathJoin a b = ospathJoin a c) :
    b = c := by
  rw [ospathJoin, ospathJoin] at h
  by_cases habs : c.data.head? = some '/'
  · rw [if_pos (hhead.trans habs), if_pos habs] at h
    exact h
  · rw [if_neg (fun hb => habs (hhead.symm.trans hb)), if_neg habs] at h
    by_cases hsep : a = "" ∨ a.data.getLast? = some '/'
    · rw [if_pos hsep, if_pos hsep] at h
      exact String.ext (List.append_cancel_left (congrArg String.data h))
    · rw [if_neg hsep, if_neg hsep] at h
      have := congrArg String.data h
      simp only [String.data_append, List.append_assoc] at this
      exact String.ext
        (List.append_cancel_left (List.append_cancel_left this))

/-- Distinct epochs give distinct per-epoch checkpoint paths. -/
theorem epochPath_inj (s : ModelCheckpoint) {n m : ℕ} (hnm : n ≠ m) :
    epochPath s n ≠ epochPath s m := by
  intro h
  rw [epochPath, epochPath] at h
  exact hnm (epochName_inj s.slurm_job_id
    (ospathJoin_right_inj s.save_path
      (epochName_head_eq s.slurm_job_id n m) h))

theorem ModelCheckpoint.resolveMonitor_preserves {s s1 : ModelCheckpoint}
    {epoch : ℕ} {logs : Logs} (h : s.resolveMonitor epoch logs = .ok s1) :
    s1.slurm_job_id = s.slurm_job_id ∧ s1.save_path = s.save_path ∧
    s1.mode = s.mode ∧ s1.save_best_only = s.save_best_only ∧
    s1.best_metric = s.best_metric := by
  rw [resolveMonitor] at h
  split at h
  · split at h
    · cases h
    · split at h
      · injection h with h
        rw [← h]
        exact ⟨rfl, rfl, rfl, rfl, rfl⟩
      · cases h
  · injection h with h
    rw [← h]
    exact ⟨rfl, rfl, rfl, rfl, rfl⟩

theorem ModelCheckpoint.saveStep_monitor (s : ModelCheckpoint) (epoch : ℕ)
    (logs : Logs) : (s.saveStep epoch logs).1.monitor = s.monitor := by
  simp only [saveStep]
  split
  · split <;> rfl
  · rfl

/-!
### Claim C5
-/

/-- C5: with `save_best_only=True` and the monitored key present (value `v`),
`on_epoch_end` writes if and only if `v` strictly improves on the best seen
(strictly less in min mode, strictly greater in max mode), every write going
to the single path `<save_path>/<job_id>.pth`; otherwise nothing is written
and the state is unchanged. -/
theorem c5_best_only_saves_iff_improves (s : ModelCheckpoint) (epoch : ℕ)
    (logs : Logs) (v : ℚ) (hb : s.save_best_only = true)
    (hm : logs.lookup s.monitor = some v) :
    s.on_epoch_end epoch logs =
      .ok (if (s.mode = "min" ∧ EFloat.fin v < s.best_metric) ∨
              (s.mode = "max" ∧ s.best_metric < EFloat.fin v) then
            ({ s with best_metric := .fin v, best_epoch := epoch },
              [bestOnlyPath s], false)
          else (s, [], false)) := by
  have hres : s.resolveMonitor epoch logs = .ok s := by
    rw [ModelCheckpoint.resolveMonitor, if_neg]
    intro hc
    rw [hm] at hc
    exact absurd hc.2 (by simp)
  have hv : Logs.getD logs s.monitor = .fin v := Logs.getD_of_lookup hm
  rw [ModelCheckpoint.on_epoch_end, hres]
  simp only [ModelCheckpoint.saveStep, hv, hb, if_true]

/-- Witness for C5: a concrete improving call in min mode writes the single
best-only file. -/
theorem c5_witness :
    (ModelCheckpoint.init ("j") ("p") ("val_loss") ("min") true).save_best_only = true ∧
    ([("val_loss", (3:ℚ))] : Logs).lookup
      (ModelCheckpoint.init ("j") ("p") ("val_loss") ("min") true).monitor = some 3 ∧
    (ModelCheckpoint.init ("j") ("p") ("val_loss") ("min") true).on_epoch_end 2
        [("val_loss", 3)] =
      .ok (if ((ModelCheckpoint.init ("j") ("p") ("val_loss") ("min") true).mode = "min" ∧
              EFloat.fin 3 <
                (ModelCheckpoint.init ("j") ("p") ("val_loss") ("min") true).best_metric) ∨
              ((ModelCheckpoint.init ("j") ("p") ("val_loss") ("min") true).mode = "max" ∧
              (ModelCheckpoint.init ("j") ("p") ("val_loss") ("min") true).best_metric <
                EFloat.fin 3) then
            ({ ModelCheckpoint.init ("j") ("p") ("val_loss") ("min") true with
                best_metric := .fin 3, best_epoch := 2 },
              [bestOnlyPath (ModelCheckpoint.init ("j") ("p") ("val_loss") ("min") true)],
              false)
          else (ModelCheckpoint.init ("j") ("p") ("val_loss") ("min") true, [], false)) :=
  ⟨rfl, by decide,
    c5_best_only_saves_iff_improves
      (ModelCheckpoint.init ("j") ("p") ("val_loss") ("min") true) 2
      [("val_loss", 3)] 3 rfl (by decide)⟩

/-!
### Claim C6
-/

/-- C6 (amended): every `on_epoch_end` call with `save_best_only=False` that
returns normally writes exactly one weight file, at the epoch-indexed path
`<save_path>/<job_id>_epoch_<N>.pth`, regardless of the monitored value; the
path depends injectively on the epoch, so distinct epochs write distinct
files and no file is overwritten.  (The epoch-1 calls that raise in the
monitor fallback return no write — see the counterexample.) -/
theorem c6_every_epoch_writes_one_distinct_file (s : ModelCheckpoint)
    (epoch : ℕ) (logs : Logs) (r : ModelCheckpoint × List String × Bool)
    (hb : s.save_best_only = false) (h : s.on_epoch_end epoch logs = .ok r) :
    r.2.1 = [epochPath s epoch] ∧
    ∀ n m : ℕ, n ≠ m → epochPath s n ≠ epochPath s m := by
  refine ⟨?_, fun n m hnm => epochPath_inj s hnm⟩
  rw [ModelCheckpoint.on_epoch_end] at h
  cases hres : s.resolveMonitor epoch logs with
  | error e => rw [hres] at h; cases h
  | ok s1 =>
      rw [hres] at h
      injection h with h
      rw [← h]
      have hp := ModelCheckpoint.resolveMonitor_preserves hres
      have hb1 : s1.save_best_only = false := hp.2.2.2.1.trans hb
      simp only [ModelCheckpoint.saveStep, hb1, Bool.false_eq_true, if_false]
      rw [epochPath, epochPath, hp.1, hp.2.1]

/-- C6 counterexample: with `save_best_only=False`, the epoch-1 call on an
empty logs dict raises `IndexError` before the unconditional save runs, so
not every call writes a file. -/
theorem c6_counterexample_epoch1_empty_logs_no_write :
    (ModelCheckpoint.init ("job") ("save") ("val_loss") ("min") false).on_epoch_end 1 []
      = .error .indexError := by rfl

/-- Witness for C6: a concrete epoch-3 call writes exactly the epoch-3 file. -/
theorem c6_witness :
    (ModelCheckpoint.init ("job") ("save") ("val_loss") ("min") false).save_best_only
        = false ∧
    (ModelCheckpoint.init ("job") ("save") ("val_loss") ("min") false).on_epoch_end 3
        [("val_loss", 2)] =
      .ok (ModelCheckpoint.init ("job") ("save") ("val_loss") ("min") false,
        [epochPath (ModelCheckpoint.init ("job") ("save") ("val_loss") ("min") false) 3],
        false) ∧
    (ModelCheckpoint.init ("job") ("save") ("val_loss") ("min") false,
      [epochPath (ModelCheckpoint.init ("job") ("save") ("val_loss") ("min") false) 3],
      false).2.1 =
      [epochPath (ModelCheckpoint.init ("job") ("save") ("val_loss") ("min") false) 3] :=
  ⟨rfl, by rfl,
    (c6_every_epoch_writes_one_distinct_file
      (ModelCheckpoint.init ("job") ("save") ("val_loss") ("min") false) 3
      [("val_loss", 2)]
      (ModelCheckpoint.init ("job") ("save") ("val_loss") ("min") false,
        [epochPath (ModelCheckpoint.init ("job") ("save") ("val_loss") ("min") false) 3],
        false)
      rfl (by rfl)).1⟩

/-!
### Claim C4
-/

theorem EFloat.not_inf_lt (a : EFloat) : ¬ EFloat.inf < a := by
  cases a <;> simp [lt_iff, lt]

theorem EFloat.lt_inf_of_ne {a : EFloat} (h : a ≠ EFloat.inf) :
    a < EFloat.inf := by
  cases a <;> simp_all [lt_iff, lt]

/-- C4 counterexample: after one epoch with loss 1 (patience 1, delta 0), a
second epoch whose logs lack `val_loss` substitutes `+inf`, which increments
the counter and signals stop — EarlyStopping's stopping logic is not
disabled by the substitution. -/
theorem c4_counterexample_missing_key_triggers_stop :
    (((EarlyStopping.init 1 0).on_epoch_end (logsOf 1)).1.on_epoch_end []).2
        = true ∧
    (((EarlyStopping.init 1 0).on_epoch_end (logsOf 1)).1.on_epoch_end
        []).1.counter = 1 ∧
    ((EarlyStopping.init 1 0).on_epoch_end (logsOf 1)).1.counter = 0 := by
  refine ⟨?_, ?_, ?_⟩ <;> rfl

/-- C4 (amended): a missing monitored key is read as `float("inf")`.  For
EarlyStopping the substitute never improves (`best_loss` is unchanged, and a
still-infinite best leaves the call a no-op returning `False`), but with a
finite best it increments the counter and can signal stop.  For best-only
ModelCheckpoint at epochs other than 1, min mode never saves on a missing
key, while max mode saves (setting the best to infinity, at the best-only
path) unless the best is already infinite. -/
theorem c4_missing_key_inf_substitution (s : EarlyStopping)
    (mc : ModelCheckpoint) (logs logs2 : Logs) (epoch : ℕ)
    (hm : (logs.lookup s.metric_name).isNone)
    (hm2 : (logs2.lookup mc.monitor).isNone)
    (hep : epoch ≠ 1) (hbo : mc.save_best_only = true) :
    (s.on_epoch_end logs).1.best_loss = s.best_loss ∧
    (s.best_loss = .inf → s.on_epoch_end logs = (s, false)) ∧
    (∀ q : ℚ, s.best_loss = .fin q →
      (s.on_epoch_end logs).1.counter = s.counter + 1 ∧
      ((s.on_epoch_end logs).2 = true ↔ s.patience ≤ s.counter + 1)) ∧
    (mc.mode = "min" → mc.on_epoch_end epoch logs2 = .ok (mc, [], false)) ∧
    (mc.mode = "max" → mc.best_metric ≠ .inf →
      mc.on_epoch_end epoch logs2 =
        .ok ({ mc with best_metric := .inf, best_epoch := epoch },
          [bestOnlyPath mc], false)) ∧
    (mc.mode = "max" → mc.best_metric = .inf →
      mc.on_epoch_end epoch logs2 = .ok (mc, [], false)) := by
  have hv : Logs.getD logs s.metric_name = .inf := Logs.getD_of_missing hm
  have hv2 : Logs.getD logs2 mc.monitor = .inf := Logs.getD_of_missing hm2
  have hni : ¬ Logs.getD logs s.metric_name < s.best_loss.subQ s.delta := by
    rw [hv]; exact EFloat.not_inf_lt _
  have hres : mc.resolveMonitor epoch logs2 = .ok mc := by
    rw [ModelCheckpoint.resolveMonitor, if_neg]
    intro hc
    exact hep hc.1
  refine ⟨?_, ?_, ?_, ?_, ?_, ?_⟩
  · by_cases h2 : s.best_loss.addQ s.delta < Logs.getD logs s.metric_name
    · rw [EarlyStopping.on_epoch_end_worse hni h2]
    · rw [EarlyStopping.on_epoch_end_band hni h2]
  · intro hinf
    refine EarlyStopping.on_epoch_end_band hni ?_
    rw [hv, hinf]
    cases hd : s.delta <;> exact EFloat.not_inf_lt _
  · intro q hq
    have h2 : s.best_loss.addQ s.delta < Logs.getD logs s.metric_name := by
      rw [hv, hq]
      exact trivial
    rw [EarlyStopping.on_epoch_end_worse hni h2]
    exact ⟨rfl, by simp⟩
  · intro hmin
    rw [ModelCheckpoint.on_epoch_end, hres]
    simp only [ModelCheckpoint.saveStep, hv2, hbo, if_true]
    rw [if_neg]
    rintro (⟨_, hlt⟩ | ⟨hmax, _⟩)
    · exact EFloat.not_inf_lt _ hlt
    · rw [hmin] at hmax
      exact absurd hmax (by decide)
  · intro hmax hne
    rw [ModelCheckpoint.on_epoch_end, hres]
    simp only [ModelCheckpoint.saveStep, hv2, hbo, if_true]
    rw [if_pos (Or.inr ⟨hmax, EFloat.lt_inf_of_ne hne⟩)]
  · intro hmax hinf
    rw [ModelCheckpoint.on_epoch_end, hres]
    simp only [ModelCheckpoint.saveStep, hv2, hbo, if_true]
    rw [if_neg]
    rintro (⟨_, hlt⟩ | ⟨_, hlt⟩)
    · exact EFloat.not_inf_lt _ hlt
    · rw [hinf] at hlt
      exact EFloat.lt_irrefl _ hlt

/-- Witness for C4 (amended): concrete states — EarlyStopping with finite
best 1 sees its counter increment on a missing key; min-mode ModelCheckpoint
performs no save. -/
theorem c4_witness :
    (([] : Logs).lookup ("val_loss")).isNone ∧
    (2 : ℕ) ≠ 1 ∧
    (({ patience := 1, delta := 0, counter := 0, best_loss := .fin 1,
        best_epoch := 0, metric_name := "val_loss" } : EarlyStopping).on_epoch_end
        []).1.best_loss =
      ({ patience := 1, delta := 0, counter := 0, best_loss := .fin 1,
          best_epoch := 0, metric_name := "val_loss" } : EarlyStopping).best_loss ∧
    (ModelCheckpoint.init ("j") ("p") ("val_loss") ("min") true).on_epoch_end 2 [] =
      .ok (ModelCheckpoint.init ("j") ("p") ("val_loss") ("min") true, [], false) := by
  have h := c4_missing_key_inf_substitution
    { patience := 1, delta := 0, counter := 0, best_loss := .fin 1,
      best_epoch := 0, metric_name := "val_loss" }
    (ModelCheckpoint.init ("j") ("p") ("val_loss") ("min") true) [] [] 2
    (by decide) (by decide) (by decide) rfl
  exact ⟨by decide, by decide, h.1, h.2.2.2.1 rfl⟩

/-!
### Claim C10: the epoch-1 monitor fallback
-/

theorem similarity_nonneg (a b : List Char) : 0 ≤ similarity a b := by
  rw [similarity]
  split
  · norm_num
  · apply div_nonneg <;> positivity

theorem gcm_scored_eq_map (w : String) (ps : List String) :
    (ps.filterMap fun x =>
      let r := similarity x.toList w.toList
      if (0:ℚ) ≤ r then some (r, x) else none) =
    ps.map fun x => (similarity x.toList w.toList, x) := by
  induction ps with
  | nil => rfl
  | cons p rest ih =>
      simp only [List.filterMap_cons, List.map_cons]
      rw [if_pos (similarity_nonneg p.toList w.toList), ih]

theorem insertTop_length (p : ℚ × String) (l : List (ℚ × String)) :
    (insertTop p l).length = l.length + 1 := by
  induction l with
  | nil => rfl
  | cons q rest ih =>
      rw [insertTop]
      split
      · rfl
      · simp [ih]

theorem sortTop_length (l : List (ℚ × String)) :
    (sortTop l).length = l.length := by
  induction l with
  | nil => rfl
  | cons p rest ih =>
      rw [sortTop, insertTop_length, ih]
      rfl

theorem insertTop_mem {x p : ℚ × String} {l : List (ℚ × String)}
    (h : x ∈ insertTop p l) : x = p ∨ x ∈ l := by
  induction l with
  | nil => simpa [insertTop] using h
  | cons q rest ih =>
      rw [insertTop] at h
      split at h
      · simpa using h
      · rcases List.mem_cons.mp h with h | h
        · exact Or.inr (by simp [h])
        · rcases ih h with h | h
          · exact Or.inl h
          · exact Or.inr (by simp [h])

theorem sortTop_mem {x : ℚ × String} {l : List (ℚ × String)}
    (h : x ∈ sortTop l) : x ∈ l := by
  induction l with
  | nil => simpa [sortTop] using h
  | cons p rest ih =>
      rw [sortTop] at h
      rcases insertTop_mem h with h | h
      · simp [h]
      · simp [ih h]

/-- At cutoff 0 with a non-empty candidate list, the fallback lookup always
returns exactly one candidate, and it is one of the offered keys. -/
theorem gcm_cutoff0_single (w : String) (ps : List String) (hps : ps ≠ []) :
    ∃ k, k ∈ ps ∧ get_close_matches w ps 1 0 = [k] := by
  simp only [get_close_matches]
  rw [gcm_scored_eq_map]
  cases hsort : sortTop (ps.map fun x => (similarity x.toList w.toList, x)) with
  | nil =>
      exfalso
      have hlen := sortTop_length
        (ps.map fun x => (similarity x.toList w.toList, x))
      rw [hsort] at hlen
      simp only [List.length_nil, List.length_map] at hlen
      exact hps (List.eq_nil_of_length_eq_zero hlen.symm)
  | cons a t =>
      have hmem : a ∈ ps.map fun x => (similarity x.toList w.toList, x) :=
        sortTop_mem (by rw [hsort]; exact List.mem_cons_self a t)
      rcases List.mem_map.mp hmem with ⟨x, hx, hxe⟩
      refine ⟨a.2, ?_, ?_⟩
      · rw [← hxe]
        exact hx
      · rfl

/-- C10 counterexample: at epoch 1 with the non-empty logs `{"": 1.0}` (a
single empty-string key), the cutoff-0 lookup succeeds with the key `""`,
but `""` is falsy in Python, so the code raises the ValueError instead of
reassigning the monitor — the fallback does not "always succeed" on
non-empty logs. -/
theorem c10_counterexample_empty_string_key_value_error :
    (ModelCheckpoint.init ("j") ("p") ("val_loss") ("min") true).on_epoch_end 1
        [("", 1)] =
      .error (.valueError (monitorErrMsg ("val_loss") [""])) := by
  have hgcm : get_close_matches ("val_loss") [""] 1 0 = [""] := by
    simp only [get_close_matches]
    rw [gcm_scored_eq_map]
    rfl
  have hres : (ModelCheckpoint.init ("j") ("p") ("val_loss") ("min") true).resolveMonitor
      1 [("", 1)] = .error (.valueError (monitorErrMsg ("val_loss") [""])) := by
    rw [ModelCheckpoint.resolveMonitor, if_pos ⟨rfl, by decide⟩]
    have hkeys : Logs.keys [("", (1:ℚ))] = [""] := rfl
    rw [show (ModelCheckpoint.init ("j") ("p") ("val_loss") ("min") true).monitor =
      "val_loss" from rfl, hkeys, hgcm]
    simp
  rw [ModelCheckpoint.on_epoch_end, hres]

/-- C10 (amended): at epoch 1 with non-empty logs missing the monitored key,
the cutoff-0 closest-match lookup returns exactly one key of the logs; when
that key is non-empty it is permanently assigned to `self.monitor` (used by
the rest of the call and all later epochs), while the empty-string key
(falsy) raises the ValueError instead.  At any epoch other than 1 a missing
monitored key triggers neither the fallback nor any error, and the monitor
is unchanged. -/
theorem c10_epoch1_fallback_behaviour (s : ModelCheckpoint) (epoch : ℕ)
    (logs : Logs) (hm : (logs.lookup s.monitor).isNone) :
    (logs ≠ [] →
      ∃ k, k ∈ Logs.keys logs ∧
        get_close_matches s.monitor (Logs.keys logs) 1 0 = [k] ∧
        (k ≠ "" → ∃ r, s.on_epoch_end 1 logs = .ok r ∧ r.1.monitor = k) ∧
        (k = "" → s.on_epoch_end 1 logs =
          .error (.valueError (monitorErrMsg s.monitor (Logs.keys logs))))) ∧
    (epoch ≠ 1 → ∃ r, s.on_epoch_end epoch logs = .ok r ∧
      r.1.monitor = s.monitor) := by
  constructor
  · intro hlogs
    have hkeys : Logs.keys logs ≠ [] := by
      intro h
      rw [Logs.keys, List.map_eq_nil_iff] at h
      exact hlogs h
    rcases gcm_cutoff0_single s.monitor (Logs.keys logs) hkeys with ⟨k, hk, hgcm⟩
    refine ⟨k, hk, hgcm, ?_, ?_⟩
    · intro hne
      have hres : s.resolveMonitor 1 logs = .ok { s with monitor := k } := by
        rw [ModelCheckpoint.resolveMonitor, if_pos ⟨rfl, hm⟩, hgcm]
        simp [hne]
      exact ⟨({ s with monitor := k }).saveStep 1 logs,
        by rw [ModelCheckpoint.on_epoch_end, hres],
        ModelCheckpoint.saveStep_monitor _ 1 logs⟩
    · intro hke
      have hres : s.resolveMonitor 1 logs =
          .error (.valueError (monitorErrMsg s.monitor (Logs.keys logs))) := by
        rw [ModelCheckpoint.resolveMonitor, if_pos ⟨rfl, hm⟩, hgcm]
        simp [hke]
      rw [ModelCheckpoint.on_epoch_end, hres]
  · intro hep
    have hres : s.resolveMonitor epoch logs = .ok s := by
      rw [ModelCheckpoint.resolveMonitor, if_neg]
      intro hc
      exact hep hc.1
    exact ⟨s.saveStep epoch logs,
      by rw [ModelCheckpoint.on_epoch_end, hres],
      ModelCheckpoint.saveStep_monitor s epoch logs⟩

/-- Witness for C10: a concrete epoch-2 call with a missing monitor returns
normally with the monitor unchanged. -/
theorem c10_witness :
    ((([("vloss", (1:ℚ))] : Logs).lookup
      (ModelCheckpoint.init ("j") ("p") ("val_loss") ("min") true).monitor).isNone) ∧
    (∃ r, (ModelCheckpoint.init ("j") ("p") ("val_loss") ("min") true).on_epoch_end 2
        [("vloss", 1)] = .ok r ∧
      r.1.monitor = (ModelCheckpoint.init ("j") ("p") ("val_loss") ("min") true).monitor) :=
  ⟨by decide,
    (c10_epoch1_fallback_behaviour
      (ModelCheckpoint.init ("j") ("p") ("val_loss") ("min") true) 2
      [("vloss", 1)] (by decide)).2 (by decide)⟩
